import Mathlib

/-!
Verification of the W2NER inference driver (`infer.py`) and its grid codec.

The stateful Python code is embedded shallowly: tensors and the neural model
are opaque, so each batch is represented by its observable behaviour (the
values the model/decode calls produce, or the fact that they raised), and the
driver loops become folds over lists of such batch outcomes.  File writes and
logging become explicit event values in the result.
-/

namespace W2NER

/-! ## Data model -/

/-- A decoded entity as produced by `utils.decode` for one sentence:
`ent[0]` is the list of token indices, `ent[1]` the label id
(`infer.py` lines 182-184). -/
structure Ent where
  idxs : List Nat
  typ : Nat
deriving DecidableEq

/-- One element of the original (un-tokenized) data list passed to
`Trainer.predict`: a record with a `"sentence"` field holding the token list
(`infer.py` line 180). -/
structure Datum where
  sentence : List String
deriving DecidableEq

/-- One entry of a record's `"entity"` list: `{"text": ..., "type": ...}`
(`infer.py` lines 183-184).  The Python key `"type"` is spelled `etype`. -/
structure EntityOut where
  text : List String
  etype : String
deriving DecidableEq

/-- One output record `{"sentence": ..., "entity": ...}`
(`infer.py` lines 181, 203). -/
structure Record where
  sentence : List String
  entity : List EntityOut
deriving DecidableEq

/-- The slice of the global `config` object that `Trainer` reads:
`config.batch_size`, `config.clip_grad_norm`, `config.predict_path` and the
vocabulary lookup `config.vocab.id_to_label` (an opaque total map here; a
lookup failure inside a batch is represented as that batch raising). -/
structure Config where
  batch_size : Nat
  clip_grad_norm : ℚ
  predict_path : String
  id_to_label : Nat → String

/-! ## Predict pass (`Trainer.predict`, `infer.py` lines 150-232)

The model call, `utils.decode` and the vocabulary lookups are opaque, so a
batch of the predict loop is represented by what the `try:` block did:
either it ran to completion (`ok`, with the per-sentence entity lists that
`utils.decode` returned), or some statement raised (`fail`), in which case
`emitted` records had already been appended to `result` by the loop at lines
179-185 before the exception fired (0 when the model call itself raised). -/

inductive BatchOutcome where
  | ok (ents : List (List Ent))
  | fail (ents : List (List Ent)) (emitted : Nat)

/-- `True` for a batch whose `try:` block completed, i.e. that reached the
`pred_result.append` / `label_result.append` statements at lines 194-195. -/
def BatchOutcome.isOk : BatchOutcome → Bool
  | .ok _ => true
  | .fail _ _ => false

/-- `sentence_batch = data[i:i+config.batch_size]` (`infer.py` line 166). -/
def sentenceBatch (data : List Datum) (i bs : Nat) : List Datum :=
  (data.drop i).take bs

/-- `{"text": [sentence[x] for x in ent[0]], "type": config.vocab.id_to_label(ent[1])}`
(`infer.py` lines 183-184).  Out-of-range indexing (which would raise in
Python and send the batch to the handler) is rendered total with `getD`. -/
def mkEntity (cfg : Config) (sentence : List String) (e : Ent) : EntityOut :=
  { text := e.idxs.map (fun x => sentence.getD x "")
    etype := cfg.id_to_label e.typ }

/-- The `instance` built for one sentence on the success path
(`infer.py` lines 181-184). -/
def mkRecord (cfg : Config) (d : Datum) (ents : List Ent) : Record :=
  { sentence := d.sentence, entity := ents.map (mkEntity cfg d.sentence) }

/-- The `instance` built for one sentence in the exception handler
(`infer.py` line 203): same sentence, empty entity list. -/
def emptyRecord (d : Datum) : Record :=
  { sentence := d.sentence, entity := [] }

/-- The records appended by `for ent_list, sentence in zip(decode_entities,
sentence_batch)` (`infer.py` lines 179-185); `zip` truncates to the shorter
operand. -/
def emitRecords (cfg : Config) (ents : List (List Ent)) (sb : List Datum) :
    List Record :=
  List.zipWith (fun el d => mkRecord cfg d el) ents sb

/-- Mutable state of the predict loop: the running offset `i`, the `result`
list, and the number of batches that reached the `pred_result.append` /
`label_result.append` statements (lines 194-195) — the length of the tensor
lists that `torch.cat` receives at lines 210-211. -/
structure PredictState where
  i : Nat
  result : List Record
  okBatches : Nat
deriving DecidableEq

/-- One iteration of the predict batch loop (`infer.py` lines 164-207).
On success the records of lines 179-185 are appended and `i += batch_size`
(line 196).  On failure, the handler (lines 197-207) appends one
empty-entity record per sentence of `sentence_batch` *after* the `emitted`
records the `try:` block had already appended, then `i += batch_size`
(line 206) and the loop continues. -/
def predictStep (cfg : Config) (data : List Datum) (st : PredictState)
    (o : BatchOutcome) : PredictState :=
  let sb := sentenceBatch data st.i cfg.batch_size
  match o with
  | .ok ents =>
      { i := st.i + cfg.batch_size
        result := st.result ++ emitRecords cfg ents sb
        okBatches := st.okBatches + 1 }
  | .fail ents emitted =>
      { i := st.i + cfg.batch_size
        result := st.result ++ ((emitRecords cfg ents sb).take emitted
            ++ sb.map emptyRecord)
        okBatches := st.okBatches }

/-- The whole batch loop of `Trainer.predict`, starting from
`i = 0`, `result = []` (lines 156, 162). -/
def predictLoop (cfg : Config) (data : List Datum)
    (outs : List BatchOutcome) : PredictState :=
  outs.foldl (predictStep cfg data) ⟨0, [], 0⟩

/-- A file write performed via `open(path, "w", encoding="utf-8")` +
`json.dump` (`infer.py` lines 229-230). -/
structure FileWrite where
  path : String
  mode : String
  encoding : String
  content : List Record
deriving DecidableEq

/-- The exception that escapes `Trainer.predict`: `torch.cat` on an empty
tensor list (line 210) raises when no batch ever reached line 195. -/
inductive PredictError where
  | emptyCat
deriving DecidableEq

/-- Observable result of a predict pass: the value-level outcome and the
list of file writes the pass performed. -/
structure PredictOut where
  outcome : Except PredictError (List Record)
  writes : List FileWrite

/-- `Trainer.predict` after the batch loop (`infer.py` lines 210-232):
`torch.cat(label_result)` raises if no batch succeeded, aborting the pass
before anything is written; otherwise the metrics are printed and the
accumulated `result` is dumped once to `config.predict_path`, opened in
mode `"w"` with UTF-8 encoding. -/
def predict (cfg : Config) (data : List Datum) (outs : List BatchOutcome) :
    PredictOut :=
  let st := predictLoop cfg data outs
  if st.okBatches = 0 then
    { outcome := .error .emptyCat, writes := [] }
  else
    { outcome := .ok st.result
      writes := [{ path := cfg.predict_path, mode := "w", encoding := "utf-8"
                   content := st.result }] }

/-- Alignment of a batch-outcome list with the data list, as produced by a
`DataLoader` over the same sentences: walking the outcomes from offset `i`,
every successful batch carries one decoded entity list per sentence of its
`sentence_batch`, and every failing batch raised before appending any record
(i.e. at the model call, line 171). -/
def alignedOuts (cfg : Config) (data : List Datum) :
    Nat → List BatchOutcome → Bool
  | _, [] => true
  | i, o :: rest =>
      (match o with
       | .ok ents => ents.length == (sentenceBatch data i cfg.batch_size).length
       | .fail _ emitted => emitted == 0) &&
      alignedOuts cfg data (i + cfg.batch_size) rest

/-! ## List helper lemmas -/

lemma zipWith_const_right {α β γ : Type} (f : β → γ) :
    ∀ (l1 : List α) (l2 : List β), l1.length = l2.length →
      List.zipWith (fun _ b => f b) l1 l2 = l2.map f := by
  intro l1
  induction l1 with
  | nil =>
      intro l2 h
      cases l2 with
      | nil => rfl
      | cons b t => simp at h
  | cons a t ih =>
      intro l2 h
      cases l2 with
      | nil => simp at h
      | cons b t2 =>
          simp only [List.zipWith_cons_cons, List.map_cons]
          rw [ih t2 (by simpa using h)]

lemma zipWith_getElem?_of_lt {α β γ : Type} (f : α → β → γ) (a0 : α) (b0 : β) :
    ∀ (l1 : List α) (l2 : List β) (j : Nat), j < l1.length → j < l2.length →
      (List.zipWith f l1 l2)[j]? = some (f (l1.getD j a0) (l2.getD j b0)) := by
  intro l1
  induction l1 with
  | nil => intro l2 j h1 _; simp at h1
  | cons a t ih =>
      intro l2 j h1 h2
      cases l2 with
      | nil => simp at h2
      | cons b t2 =>
          cases j with
          | zero => simp [List.zipWith_cons_cons]
          | succ m =>
              simp only [List.zipWith_cons_cons, List.getElem?_cons_succ]
              exact ih t2 m (by simpa using h1) (by simpa using h2)

/-! ## Predict loop invariants -/

lemma emitRecords_map_sentence (cfg : Config) (ents : List (List Ent))
    (sb : List Datum) (h : ents.length = sb.length) :
    (emitRecords cfg ents sb).map Record.sentence = sb.map Datum.sentence := by
  unfold emitRecords
  rw [List.map_zipWith]
  simp only [mkRecord]
  exact zipWith_const_right Datum.sentence ents sb h

lemma take_mul_succ_chunk (data : List Datum) (i bs n : Nat) :
    (data.drop i).take ((n + 1) * bs)
      = (data.drop i).take bs ++ (data.drop (i + bs)).take (n * bs) := by
  rw [Nat.succ_mul, Nat.add_comm (n * bs) bs, List.take_add, List.drop_drop]

lemma predictLoop_result_sentences (cfg : Config) (data : List Datum) :
    ∀ (outs : List BatchOutcome) (st : PredictState),
      alignedOuts cfg data st.i outs = true →
      ((outs.foldl (predictStep cfg data) st).result).map Record.sentence
        = st.result.map Record.sentence
          ++ ((data.drop st.i).take (outs.length * cfg.batch_size)).map
              Datum.sentence := by
  intro outs
  induction outs with
  | nil => intro st _; simp
  | cons o rest ih =>
      intro st h
      rw [alignedOuts.eq_def] at h
      rw [Bool.and_eq_true] at h
      obtain ⟨h1, h2⟩ := h
      rw [List.foldl_cons]
      cases o with
      | ok ents =>
          rw [beq_iff_eq] at h1
          have hstep : predictStep cfg data st (.ok ents)
              = { i := st.i + cfg.batch_size
                  result := st.result
                    ++ emitRecords cfg ents (sentenceBatch data st.i cfg.batch_size)
                  okBatches := st.okBatches + 1 } := rfl
          rw [hstep, ih _ h2]
          simp only [List.length_cons, List.map_append]
          rw [emitRecords_map_sentence cfg _ _ h1]
          rw [take_mul_succ_chunk data st.i cfg.batch_size rest.length]
          simp [sentenceBatch, List.map_append, List.append_assoc]
      | fail ents emitted =>
          rw [beq_iff_eq] at h1
          subst h1
          have hstep : predictStep cfg data st (.fail ents 0)
              = { i := st.i + cfg.batch_size
                  result := st.result
                    ++ (sentenceBatch data st.i cfg.batch_size).map emptyRecord
                  okBatches := st.okBatches } := by
            simp [predictStep]
          rw [hstep, ih _ h2]
          simp only [List.length_cons, List.map_append, List.map_map]
          rw [take_mul_succ_chunk data st.i cfg.batch_size rest.length]
          have hmap : (sentenceBatch data st.i cfg.batch_size).map
              (Record.sentence ∘ emptyRecord)
              = (sentenceBatch data st.i cfg.batch_size).map Datum.sentence := by
            simp [emptyRecord, Function.comp]
          rw [hmap]
          simp [sentenceBatch, List.map_append, List.append_assoc]

lemma predictLoop_okBatches (cfg : Config) (data : List Datum) :
    ∀ (outs : List BatchOutcome) (st : PredictState),
      (outs.foldl (predictStep cfg data) st).okBatches
        = st.okBatches + outs.countP (fun o => o.isOk) := by
  intro outs
  induction outs with
  | nil => intro st; simp
  | cons o rest ih =>
      intro st
      rw [List.foldl_cons, ih]
      cases o with
      | ok ents =>
          have : (BatchOutcome.ok ents).isOk = true := rfl
          simp [predictStep, List.countP_cons, this]
          omega
      | fail ents emitted =>
          have : (BatchOutcome.fail ents emitted).isOk = false := rfl
          simp [predictStep, List.countP_cons, this]

lemma predictLoop_i_aux (cfg : Config) (data : List Datum) :
    ∀ (outs : List BatchOutcome) (st : PredictState),
      (outs.foldl (predictStep cfg data) st).i
        = st.i + outs.length * cfg.batch_size := by
  intro outs
  induction outs with
  | nil => intro st; simp
  | cons o rest ih =>
      intro st
      rw [List.foldl_cons, ih]
      have hi : (predictStep cfg data st o).i = st.i + cfg.batch_size := by
        cases o <;> rfl
      rw [hi, List.length_cons, Nat.succ_mul]
      omega

lemma getElem?_eq_some_getD {α : Type} (l : List α) (j : Nat) (d : α)
    (h : j < l.length) : l[j]? = some (l.getD j d) := by
  rw [List.getD_eq_getElem?_getD, List.getElem?_eq_getElem h]
  rfl

lemma mkEntity_text_getElem (cfg : Config) (s : List String) (e : Ent)
    (m x : Nat) (hm : e.idxs[m]? = some x) (hx : x < s.length) :
    (mkEntity cfg s e).text[m]? = s[x]? := by
  simp only [mkEntity]
  rw [List.getElem?_map, hm, List.getElem?_eq_getElem hx]
  simp [List.getD_eq_getElem?_getD, List.getElem?_eq_getElem hx]

/-! ## Claim C1 -/

/-- C1 counterexample: with one input sentence whose single batch raises at
the model call, `predict` does not produce one record per input sentence —
`torch.cat` on the empty `label_result` raises (line 210), the pass aborts
and nothing at all is written, so the written result does not contain
`N = 1` records. -/
theorem predict_all_fail_counterexample :
    ((predict ⟨1, 0, "out.json", fun _ => ""⟩ [⟨["a"]⟩]
        [.fail [] 0]).outcome = Except.error PredictError.emptyCat)
    ∧ (predict ⟨1, 0, "out.json", fun _ => ""⟩ [⟨["a"]⟩]
        [.fail [] 0]).writes = [] :=
  ⟨rfl, rfl⟩

/-- C1 (amended): a Predict pass over a batch sequence that covers the data
list produces exactly one output record per input sentence, with the correct
original sentence field, provided (a) at least one batch fully succeeds
(otherwise `torch.cat` on the empty result lists raises and nothing is
written) and (b) every failing batch raises before any of its records was
appended, e.g. at the model invocation (otherwise the already-appended
records are duplicated by the handler). -/
theorem predict_record_count_amended (cfg : Config) (data : List Datum)
    (outs : List BatchOutcome)
    (hcover : data.length ≤ outs.length * cfg.batch_size)
    (hok : ∃ o ∈ outs, o.isOk = true)
    (halign : alignedOuts cfg data 0 outs = true) :
    ∃ res, (predict cfg data outs).outcome = Except.ok res
      ∧ (predict cfg data outs).writes
          = [{ path := cfg.predict_path, mode := "w", encoding := "utf-8"
               content := res }]
      ∧ res.length = data.length
      ∧ res.map Record.sentence = data.map Datum.sentence := by
  have hcount : (predictLoop cfg data outs).okBatches
      = List.countP (fun o => o.isOk) outs := by
    have h := predictLoop_okBatches cfg data outs ⟨0, [], 0⟩
    simpa [predictLoop] using h
  have hpos : 0 < List.countP (fun o => o.isOk) outs := by
    rw [List.countP_pos_iff]
    exact hok
  have hne : ¬ (predictLoop cfg data outs).okBatches = 0 := by
    rw [hcount]; omega
  have hsent : ((predictLoop cfg data outs).result).map Record.sentence
      = data.map Datum.sentence := by
    have h := predictLoop_result_sentences cfg data outs ⟨0, [], 0⟩ halign
    rw [predictLoop]
    rw [h]
    simp only [List.map_nil, List.nil_append, List.drop_zero]
    rw [List.take_of_length_le hcover]
  refine ⟨(predictLoop cfg data outs).result, ?_, ?_, ?_, hsent⟩
  · simp [predict, hne]
  · simp [predict, hne]
  · have h := congrArg List.length hsent
    simpa using h

/-- Witness for C1 (amended): one batch of one sentence, succeeding with no
entities, gives exactly one record with the original sentence. -/
theorem predict_record_count_amended_witness :
    (([⟨["a"]⟩] : List Datum).length
        ≤ ([.ok [[]]] : List BatchOutcome).length * (1 : Nat)
      ∧ (∃ o ∈ ([.ok [[]]] : List BatchOutcome), o.isOk = true)
      ∧ alignedOuts ⟨1, 0, "out.json", fun _ => ""⟩ [⟨["a"]⟩] 0 [.ok [[]]] = true)
    ∧ ∃ res, (predict ⟨1, 0, "out.json", fun _ => ""⟩ [⟨["a"]⟩]
          [.ok [[]]]).outcome = Except.ok res
      ∧ (predict ⟨1, 0, "out.json", fun _ => ""⟩ [⟨["a"]⟩] [.ok [[]]]).writes
          = [{ path := "out.json", mode := "w", encoding := "utf-8"
               content := res }]
      ∧ res.length = ([⟨["a"]⟩] : List Datum).length
      ∧ res.map Record.sentence = ([⟨["a"]⟩] : List Datum).map Datum.sentence :=
  ⟨⟨by decide, ⟨.ok [[]], by simp [BatchOutcome.isOk]⟩, by decide⟩,
    predict_record_count_amended ⟨1, 0, "out.json", fun _ => ""⟩ [⟨["a"]⟩]
      [.ok [[]]] (by decide) ⟨.ok [[]], by simp [BatchOutcome.isOk]⟩ (by decide)⟩

/-! ## Claim C7 -/

/-- Conclusion of claim C7, as a predicate on the inputs of a successful
predict-loop iteration: the records appended on the success path are in
bijection with the sentence batch, and each record pairs the original
sentence with entity texts read off that sentence at the decoded indices and
the vocabulary string of the decoded type id. -/
def predictOkSpec (cfg : Config) (data : List Datum) (st : PredictState)
    (ents : List (List Ent)) : Prop :=
  (predictStep cfg data st (.ok ents)).result
      = st.result ++ emitRecords cfg ents (sentenceBatch data st.i cfg.batch_size)
  ∧ (emitRecords cfg ents (sentenceBatch data st.i cfg.batch_size)).length
      = (sentenceBatch data st.i cfg.batch_size).length
  ∧ (∀ j : Nat, j < (sentenceBatch data st.i cfg.batch_size).length →
      (emitRecords cfg ents (sentenceBatch data st.i cfg.batch_size))[j]?
        = some (mkRecord cfg
            ((sentenceBatch data st.i cfg.batch_size).getD j ⟨[]⟩)
            (ents.getD j [])))
  ∧ (∀ (d : Datum) (el : List Ent),
      (mkRecord cfg d el).sentence = d.sentence
        ∧ (mkRecord cfg d el).entity = el.map (mkEntity cfg d.sentence))
  ∧ (∀ (s : List String) (e : Ent),
      (mkEntity cfg s e).etype = cfg.id_to_label e.typ
        ∧ ∀ (m x : Nat), e.idxs[m]? = some x → x < s.length →
            (mkEntity cfg s e).text[m]? = s[x]?)

/-- C7: in Predict's success path, for every sentence in the batch exactly
one record is emitted; its entity texts equal the original sentence's tokens
at the decoded indices, in decoded order, and its type is the vocabulary
label string of the decoded type id. -/
theorem predict_success_records_content (cfg : Config) (data : List Datum)
    (st : PredictState) (ents : List (List Ent))
    (hlen : ents.length = (sentenceBatch data st.i cfg.batch_size).length) :
    predictOkSpec cfg data st ents := by
  refine ⟨rfl, ?_, ?_, ?_, ?_⟩
  · unfold emitRecords
    rw [List.length_zipWith, hlen, Nat.min_self]
  · intro j hj
    exact zipWith_getElem?_of_lt _ [] ⟨[]⟩ ents _ j (by rw [hlen]; exact hj) hj
  · intro d el
    exact ⟨rfl, rfl⟩
  · intro s e
    refine ⟨rfl, fun m x hm hx => mkEntity_text_getElem cfg s e m x hm hx⟩

/-- Witness for C7 at a one-sentence batch with one decoded entity. -/
theorem predict_success_records_content_witness :
    ([[⟨[0], 2⟩]] : List (List Ent)).length
        = (sentenceBatch [⟨["tok"]⟩] 0 1).length
    ∧ predictOkSpec ⟨1, 0, "p.json", fun _ => "PER"⟩ [⟨["tok"]⟩] ⟨0, [], 0⟩
        [[⟨[0], 2⟩]] :=
  ⟨by decide,
    predict_success_records_content ⟨1, 0, "p.json", fun _ => "PER"⟩ [⟨["tok"]⟩]
      ⟨0, [], 0⟩ [[⟨[0], 2⟩]] (by decide)⟩

/-! ## Claim C8 -/

/-- C8 counterexample: a Predict pass in which every batch fails writes its
output file zero times, not once — `torch.cat` raises at line 210 before the
`open` at line 229 is reached. -/
theorem predict_all_fail_no_write_counterexample :
    (predict ⟨2, 0, "preds.json", fun _ => "X"⟩ [⟨["b"]⟩, ⟨["c"]⟩]
        [.fail [] 0]).writes = [] := rfl

/-- C8 (amended): provided at least one batch fully succeeds, the Predict
pass writes its output exactly once, after all batches, to
`config.predict_path` in mode `"w"` (overwriting) with UTF-8 encoding, and
the content is the complete accumulated result list; if every batch fails
the final `torch.cat` raises and nothing is written. -/
theorem predict_single_write_amended (cfg : Config) (data : List Datum)
    (outs : List BatchOutcome) (hok : ∃ o ∈ outs, o.isOk = true) :
    (predict cfg data outs).writes
      = [{ path := cfg.predict_path, mode := "w", encoding := "utf-8"
           content := (predictLoop cfg data outs).result }]
    ∧ (predict cfg data outs).outcome
      = Except.ok (predictLoop cfg data outs).result := by
  have hcount : (predictLoop cfg data outs).okBatches
      = List.countP (fun o => o.isOk) outs := by
    have h := predictLoop_okBatches cfg data outs ⟨0, [], 0⟩
    simpa [predictLoop] using h
  have hpos : 0 < List.countP (fun o => o.isOk) outs := by
    rw [List.countP_pos_iff]
    exact hok
  have hne : ¬ (predictLoop cfg data outs).okBatches = 0 := by
    rw [hcount]; omega
  exact ⟨by simp [predict, hne], by simp [predict, hne]⟩

/-- Witness for C8 (amended): a single successful batch leads to exactly one
write of the accumulated result. -/
theorem predict_single_write_amended_witness :
    (∃ o ∈ ([.ok [[]]] : List BatchOutcome), o.isOk = true)
    ∧ (predict ⟨1, 0, "w.json", fun _ => ""⟩ [⟨["a"]⟩] [.ok [[]]]).writes
        = [{ path := "w.json", mode := "w", encoding := "utf-8"
             content := (predictLoop ⟨1, 0, "w.json", fun _ => ""⟩ [⟨["a"]⟩]
                 [.ok [[]]]).result }]
    ∧ (predict ⟨1, 0, "w.json", fun _ => ""⟩ [⟨["a"]⟩] [.ok [[]]]).outcome
        = Except.ok (predictLoop ⟨1, 0, "w.json", fun _ => ""⟩ [⟨["a"]⟩]
            [.ok [[]]]).result :=
  ⟨⟨.ok [[]], by simp [BatchOutcome.isOk]⟩,
    (predict_single_write_amended ⟨1, 0, "w.json", fun _ => ""⟩ [⟨["a"]⟩]
        [.ok [[]]] ⟨.ok [[]], by simp [BatchOutcome.isOk]⟩).1,
    (predict_single_write_amended ⟨1, 0, "w.json", fun _ => ""⟩ [⟨["a"]⟩]
        [.ok [[]]] ⟨.ok [[]], by simp [BatchOutcome.isOk]⟩).2⟩

/-! ## Claim C9 -/

/-- C9: the offset `i` advances by exactly `config.batch_size` per batch,
on success (line 196) and on failure (line 206) alike, so after `k` batches
`i = k * batch_size` and the next batch is paired with
`data[k*batch_size : (k+1)*batch_size]`. -/
theorem predict_offset_alignment (cfg : Config) (data : List Datum)
    (outs : List BatchOutcome) (k : Nat) (hk : k ≤ outs.length) :
    (predictLoop cfg data (outs.take k)).i = k * cfg.batch_size
    ∧ sentenceBatch data (predictLoop cfg data (outs.take k)).i cfg.batch_size
        = (data.drop (k * cfg.batch_size)).take cfg.batch_size := by
  have h1 : (predictLoop cfg data (outs.take k)).i = k * cfg.batch_size := by
    have h := predictLoop_i_aux cfg data (outs.take k) ⟨0, [], 0⟩
    rw [predictLoop, h]
    simp [List.length_take, Nat.min_eq_left hk]
  exact ⟨h1, by rw [h1]; rfl⟩

/-- Witness for C9: two batches of size 2 over five sentences, the first one
failing; after the two batches `i = 4` and the next slice starts at index 4. -/
theorem predict_offset_alignment_witness :
    (2 ≤ ([.fail [] 0, .ok [[], []]] : List BatchOutcome).length)
    ∧ (predictLoop ⟨2, 0, "o.json", fun _ => ""⟩
        [⟨["a"]⟩, ⟨["b"]⟩, ⟨["c"]⟩, ⟨["d"]⟩, ⟨["e"]⟩]
        (([.fail [] 0, .ok [[], []]] : List BatchOutcome).take 2)).i = 2 * 2
    ∧ sentenceBatch [⟨["a"]⟩, ⟨["b"]⟩, ⟨["c"]⟩, ⟨["d"]⟩, ⟨["e"]⟩]
        (predictLoop ⟨2, 0, "o.json", fun _ => ""⟩
          [⟨["a"]⟩, ⟨["b"]⟩, ⟨["c"]⟩, ⟨["d"]⟩, ⟨["e"]⟩]
          (([.fail [] 0, .ok [[], []]] : List BatchOutcome).take 2)).i 2
        = (([⟨["a"]⟩, ⟨["b"]⟩, ⟨["c"]⟩, ⟨["d"]⟩, ⟨["e"]⟩] : List Datum).drop
            (2 * 2)).take 2 :=
  ⟨by decide,
    (predict_offset_alignment ⟨2, 0, "o.json", fun _ => ""⟩
      [⟨["a"]⟩, ⟨["b"]⟩, ⟨["c"]⟩, ⟨["d"]⟩, ⟨["e"]⟩]
      [.fail [] 0, .ok [[], []]] 2 (by decide)).1,
    (predict_offset_alignment ⟨2, 0, "o.json", fun _ => ""⟩
      [⟨["a"]⟩, ⟨["b"]⟩, ⟨["c"]⟩, ⟨["d"]⟩, ⟨["e"]⟩]
      [.fail [] 0, .ok [[], []]] 2 (by decide)).2⟩

/-! ## Claim C10 -/

/-- Conclusion of claim C10: when a batch raises after `emitted ≥ 1` of its
records were already appended by the loop at lines 179-185, the handler
(lines 201-204) appends one empty-entity record for every sentence of
`sentence_batch`, so each of the first `emitted` sentences contributes two
records — a full one at position `j` and an empty one at position
`emitted + j` of the batch's contribution. -/
def predictFailSpec (cfg : Config) (data : List Datum) (st : PredictState)
    (ents : List (List Ent)) (emitted : Nat) : Prop :=
  (predictStep cfg data st (.fail ents emitted)).result
      = st.result
        ++ ((emitRecords cfg ents (sentenceBatch data st.i cfg.batch_size)).take
              emitted
            ++ (sentenceBatch data st.i cfg.batch_size).map emptyRecord)
  ∧ ((emitRecords cfg ents (sentenceBatch data st.i cfg.batch_size)).take emitted
      ++ (sentenceBatch data st.i cfg.batch_size).map emptyRecord).length
      = emitted + (sentenceBatch data st.i cfg.batch_size).length
  ∧ ∀ j : Nat, j < emitted →
      j ≠ emitted + j
      ∧ (((emitRecords cfg ents (sentenceBatch data st.i cfg.batch_size)).take
              emitted
            ++ (sentenceBatch data st.i cfg.batch_size).map emptyRecord)[j]?).map
            Record.sentence
          = some ((sentenceBatch data st.i cfg.batch_size).getD j ⟨[]⟩).sentence
      ∧ (((emitRecords cfg ents (sentenceBatch data st.i cfg.batch_size)).take
              emitted
            ++ (sentenceBatch data st.i cfg.batch_size).map
                emptyRecord)[emitted + j]?).map Record.sentence
          = some ((sentenceBatch data st.i cfg.batch_size).getD j ⟨[]⟩).sentence

/-- C10: an exception raised after part of a batch's records were appended
(e.g. a vocabulary lookup failing partway through the batch) makes the
handler append a full batch of empty-entity records on top, so the sentences
already processed in that batch appear twice in the output. -/
theorem predict_partial_failure_duplicates (cfg : Config) (data : List Datum)
    (st : PredictState) (ents : List (List Ent)) (emitted : Nat)
    (hlen : ents.length = (sentenceBatch data st.i cfg.batch_size).length)
    (hpos : 1 ≤ emitted)
    (hle : emitted ≤ (sentenceBatch data st.i cfg.batch_size).length) :
    predictFailSpec cfg data st ents emitted := by
  have hel : (emitRecords cfg ents (sentenceBatch data st.i cfg.batch_size)).length
      = (sentenceBatch data st.i cfg.batch_size).length := by
    unfold emitRecords
    rw [List.length_zipWith, hlen, Nat.min_self]
  have htl : ((emitRecords cfg ents (sentenceBatch data st.i cfg.batch_size)).take
      emitted).length = emitted := by
    rw [List.length_take, hel, Nat.min_eq_left hle]
  refine ⟨rfl, ?_, ?_⟩
  · rw [List.length_append, htl, List.length_map]
  · intro j hj
    have hjsb : j < (sentenceBatch data st.i cfg.batch_size).length := by omega
    refine ⟨by omega, ?_, ?_⟩
    · rw [List.getElem?_append, if_pos (by rw [htl]; exact hj)]
      rw [List.getElem?_take, if_pos hj]
      unfold emitRecords
      rw [zipWith_getElem?_of_lt _ [] ⟨[]⟩ ents _ j (by rw [hlen]; exact hjsb) hjsb]
      rfl
    · rw [List.getElem?_append, if_neg (by rw [htl]; omega)]
      rw [htl]
      have hsub : emitted + j - emitted = j := by omega
      rw [hsub, List.getElem?_map,
        getElem?_eq_some_getD (sentenceBatch data st.i cfg.batch_size) j ⟨[]⟩ hjsb]
      rfl

/-- Witness for C10: a two-sentence batch that raises after its first record
was appended produces three records, the first sentence appearing twice. -/
theorem predict_partial_failure_duplicates_witness :
    (([[⟨[0], 2⟩], []] : List (List Ent)).length
        = (sentenceBatch [⟨["u"]⟩, ⟨["v"]⟩] 0 2).length
      ∧ 1 ≤ 1
      ∧ 1 ≤ (sentenceBatch [⟨["u"]⟩, ⟨["v"]⟩] 0 2).length)
    ∧ predictFailSpec ⟨2, 0, "d.json", fun _ => "T"⟩ [⟨["u"]⟩, ⟨["v"]⟩]
        ⟨0, [], 0⟩ [[⟨[0], 2⟩], []] 1 :=
  ⟨⟨by decide, by decide, by decide⟩,
    predict_partial_failure_duplicates ⟨2, 0, "d.json", fun _ => "T"⟩
      [⟨["u"]⟩, ⟨["v"]⟩] ⟨0, [], 0⟩ [[⟨[0], 2⟩], []] 1 (by decide) (by decide)
      (by decide)⟩

/-! ## Train and Eval passes (`Trainer.train`, `Trainer.eval`)

The model, the loss criterion and the optimizer are opaque, so a batch is
represented by the behaviour of the opaque calls made on it, and the loop
bodies record the operations they perform as an event trace. -/

/-- `model.train()` / `model.eval()` mode flag. -/
inductive Mode where
  | train
  | eval
deriving DecidableEq

/-- Observable operations of the train/eval loops, in program order: the
model invocation, the masked-loss computation, `loss.backward()`,
`torch.nn.utils.clip_grad_norm_` with its bound, `optimizer.step()`,
`optimizer.zero_grad()`, `self.scheduler.step()`, `utils.decode`,
`logger.info`, and entry/exit of the `torch.no_grad()` scope. -/
inductive Event where
  | forward
  | lossCompute
  | backward
  | clipGrad (bound : ℚ)
  | optStep
  | zeroGrad
  | schedStep
  | decodeCall
  | logLine (msg : String)
  | noGradBegin
  | noGradEnd
deriving DecidableEq

/-- The `Trainer` object state that train/eval can observe or mutate: the
model parameters (opaque type `P`), the optimizer state (opaque type `O`),
the mode flag, and the scheduler attribute.  `__init__` (lines 21-43)
builds the optimizer but never assigns `self.scheduler` — its creation
(lines 41-43) is commented out — so attribute lookup finds nothing. -/
structure Trainer (P O : Type) where
  params : P
  optState : O
  mode : Mode
  scheduler : Option Unit

/-- `Trainer.__init__` (lines 21-43): fresh parameters and optimizer state,
no scheduler attribute. -/
def Trainer.init {P O : Type} (p : P) (o : O) : Trainer P O :=
  { params := p, optState := o, mode := .train, scheduler := none }

/-- PyTorch boolean-mask indexing `t[mask]` for one row: the elements of
`grow` at positions where `mrow` is true, in order. -/
def maskedRow {α : Type} (mrow : List Bool) (grow : List α) : List α :=
  (mrow.zip grow).filterMap (fun p => if p.1 then some p.2 else none)

/-- PyTorch boolean-mask indexing `t[mask]` for a 2-D tensor: row-major
concatenation of the masked rows (`outputs[grid_mask2d]` and
`grid_labels[grid_mask2d]`, `infer.py` line 66). -/
def maskedSelect {α : Type} (mask : List (List Bool)) (g : List (List α)) :
    List α :=
  ((mask.zip g).map (fun p => maskedRow p.1 p.2)).flatten

/-- The cell `(i, j)` of a 2-D list, if present. -/
def cellAt {α : Type} (g : List (List α)) (i j : Nat) : Option α :=
  (g[i]?).bind (fun r => r[j]?)

/-- One training batch (`infer.py` lines 51-54): the gold label grid, the
validity mask, and the behaviour of the opaque model invocation at line 57 —
its output grid (cells of opaque type `α`) or the exception it raised. -/
structure TrainBatch (α : Type) where
  gridLabels : List (List Nat)
  gridMask2d : List (List Bool)
  modelResult : Except String (List (List α))

/-- Exceptions escaping `Trainer.train`: the `AttributeError` from
`self.scheduler.step()` (line 82, `self.scheduler` never being assigned),
and `torch.cat` on empty tensor lists (lines 84-85) when no batch ever
completed. -/
inductive TrainError where
  | noScheduler
  | emptyCat
deriving DecidableEq

/-- Result of the train batch loop: the events executed, the argument pairs
`(outputs[grid_mask2d], grid_labels[grid_mask2d])` handed to the
cross-entropy criterion (line 66) by each completed iteration, and the
number of completed iterations or the error that aborted the loop. -/
structure TrainLoopOut (α : Type) where
  events : List Event
  losses : List (List α × List Nat)
  outcome : Except TrainError Nat

/-- The batch loop of `Trainer.train` (lines 51-82).  A batch whose model
call raises is logged — the exception and the batch content — and skipped,
and the loop continues (lines 56-61).  After a successful model call the
masked loss is computed (line 66), backpropagated, the gradient norm is
clipped to `config.clip_grad_norm`, the optimizer steps and the gradients
are cleared (lines 68-71); then `self.scheduler.step()` (line 82) raises
`AttributeError` whenever the trainer has no scheduler, aborting the
epoch. -/
def trainLoop {α P O : Type} (cfg : Config) (tr : Trainer P O) :
    List (TrainBatch α) → TrainLoopOut α
  | [] => { events := [], losses := [], outcome := .ok 0 }
  | b :: rest =>
      match b.modelResult with
      | .error e =>
          let r := trainLoop cfg tr rest
          { events := Event.forward :: .logLine e :: .logLine "data_batch"
              :: r.events
            losses := r.losses
            outcome := r.outcome }
      | .ok outputs =>
          let evs := [Event.forward, .lossCompute, .backward,
            .clipGrad cfg.clip_grad_norm, .optStep, .zeroGrad]
          let largs := (maskedSelect b.gridMask2d outputs,
            maskedSelect b.gridMask2d b.gridLabels)
          match tr.scheduler with
          | none =>
              { events := evs, losses := [largs], outcome := .error .noScheduler }
          | some _ =>
              let r := trainLoop cfg tr rest
              { events := evs ++ Event.schedStep :: r.events
                losses := largs :: r.losses
                outcome := r.outcome.map (· + 1) }

/-- `Trainer.train` (lines 45-95): the batch loop, then `torch.cat` over
the accumulated per-batch tensors (lines 84-85), which raises when no batch
ever completed. -/
def train {α P O : Type} (cfg : Config) (tr : Trainer P O)
    (batches : List (TrainBatch α)) : List Event × Except TrainError Unit :=
  let r := trainLoop cfg tr batches
  match r.outcome with
  | .error e => (r.events, .error e)
  | .ok n => (r.events, if n = 0 then .error .emptyCat else .ok ())

/-- One evaluation batch (`infer.py` lines 107-118): gold labels, mask, the
behaviour of the model call (line 112), and the behaviour of `utils.decode`
(line 118) — the `(ent_c, ent_p, ent_r)` counts it returned, or the
exception it raised. -/
structure EvalBatch (α : Type) where
  gridLabels : List (List Nat)
  gridMask2d : List (List Bool)
  modelResult : Except String (List (List α))
  decodeResult : Except String (Nat × Nat × Nat)

/-- Exceptions escaping `Trainer.eval`: the eval loop (lines 106-128) has
no try/except, so a model or decode exception propagates; `torch.cat`
(lines 130-131) raises when the loader was empty. -/
inductive EvalError where
  | modelRaised (e : String)
  | decodeRaised (e : String)
  | emptyCat
deriving DecidableEq

/-- The eval batch loop (`infer.py` lines 106-128), run inside
`torch.no_grad()`: per batch a forward pass, then `utils.decode`,
accumulating the entity counts.  There is no exception handling: the first
raising batch aborts the loop.  Returns the events, the number of batches
entered, and the summed counts or the first error. -/
def evalLoop {α : Type} :
    List (EvalBatch α) → List Event × Nat × Except EvalError (Nat × Nat × Nat)
  | [] => ([], 0, .ok (0, 0, 0))
  | b :: rest =>
      match b.modelResult with
      | .error e => ([.forward], 1, .error (.modelRaised e))
      | .ok _ =>
          match b.decodeResult with
          | .error e => ([.forward, .decodeCall], 1, .error (.decodeRaised e))
          | .ok (c, p, r) =>
              let t := evalLoop rest
              (Event.forward :: Event.decodeCall :: t.1, t.2.1 + 1,
                t.2.2.map (fun s => (s.1 + c, s.2.1 + p, s.2.2 + r)))

/-- `Trainer.eval` (lines 97-148): `self.model.eval()`, the batch loop
under `torch.no_grad()` (the scope is exited even when a batch raises),
then `torch.cat` (lines 130-131), raising on an empty loader.  The
trainer's parameters, optimizer state and scheduler are untouched; only the
mode flag changes. -/
def evalRun {α P O : Type} (tr : Trainer P O) (batches : List (EvalBatch α)) :
    Trainer P O × List Event × Except EvalError (Nat × Nat × Nat) :=
  let t := evalLoop batches
  let summary : Except EvalError (Nat × Nat × Nat) :=
    match t.2.2 with
    | .error e => .error e
    | .ok s => if batches.length = 0 then .error .emptyCat else .ok s
  ({ tr with mode := Mode.eval },
    Event.noGradBegin :: t.1 ++ [Event.noGradEnd], summary)

/-! ## Masked-selection lemmas -/

lemma maskedRow_nil_left {α : Type} (r : List α) : maskedRow [] r = [] := by
  simp [maskedRow]

lemma maskedRow_nil_right {α : Type} (ms : List Bool) :
    maskedRow ms ([] : List α) = [] := by
  simp [maskedRow, List.zip_nil_right]

lemma maskedRow_cons {α : Type} (m : Bool) (ms : List Bool) (x : α)
    (t : List α) :
    maskedRow (m :: ms) (x :: t)
      = if m then x :: maskedRow ms t else maskedRow ms t := by
  cases m <;> simp [maskedRow]

/-- The masked selection of a row depends only on the entries of the row at
mask-true positions. -/
lemma maskedRow_congr {α : Type} :
    ∀ (mrow : List Bool) (r r' : List α),
      (∀ j : Nat, mrow[j]? = some true → r[j]? = r'[j]?) →
      maskedRow mrow r = maskedRow mrow r' := by
  intro mrow
  induction mrow with
  | nil => intro r r' _; rw [maskedRow_nil_left, maskedRow_nil_left]
  | cons m ms ih =>
      intro r r' h
      cases r with
      | nil =>
          cases r' with
          | nil => rfl
          | cons y t' =>
              rw [maskedRow_nil_right, maskedRow_cons]
              cases m with
              | true =>
                  have h0 := h 0 (by simp)
                  simp at h0
              | false =>
                  have := ih [] t' (fun j hj => by
                    have := h (j + 1) (by simpa using hj)
                    simpa using this)
                  rw [maskedRow_nil_right] at this
                  simpa using this.symm ▸ rfl
      | cons x t =>
          cases r' with
          | nil =>
              rw [maskedRow_nil_right, maskedRow_cons]
              cases m with
              | true =>
                  have h0 := h 0 (by simp)
                  simp at h0
              | false =>
                  have := ih t [] (fun j hj => by
                    have := h (j + 1) (by simpa using hj)
                    simpa using this)
                  rw [maskedRow_nil_right] at this
                  simpa using this
          | cons y t' =>
              rw [maskedRow_cons, maskedRow_cons]
              have htail : maskedRow ms t = maskedRow ms t' :=
                ih t t' (fun j hj => by
                  have := h (j + 1) (by simpa using hj)
                  simpa using this)
              cases m with
              | true =>
                  have h0 := h 0 (by simp)
                  simp at h0
                  rw [h0, htail]
              | false => simpa using htail

lemma maskedSelect_nil_left {α : Type} (g : List (List α)) :
    maskedSelect [] g = [] := by
  simp [maskedSelect]

lemma maskedSelect_nil_right {α : Type} (mask : List (List Bool)) :
    maskedSelect mask ([] : List (List α)) = [] := by
  simp [maskedSelect, List.zip_nil_right]

lemma maskedSelect_cons {α : Type} (mrow : List Bool)
    (mrest : List (List Bool)) (r : List α) (grest : List (List α)) :
    maskedSelect (mrow :: mrest) (r :: grest)
      = maskedRow mrow r ++ maskedSelect mrest grest := by
  simp [maskedSelect]

/-- The masked selection of a grid depends only on the cells at mask-true
positions: the loss at line 66 cannot see any cell outside the validity
mask. -/
lemma maskedSelect_congr {α : Type} :
    ∀ (mask : List (List Bool)) (g g' : List (List α)),
      (∀ i j : Nat, cellAt mask i j = some true → cellAt g i j = cellAt g' i j) →
      maskedSelect mask g = maskedSelect mask g' := by
  intro mask
  induction mask with
  | nil => intro g g' _; rw [maskedSelect_nil_left, maskedSelect_nil_left]
  | cons mrow mrest ih =>
      intro g g' h
      cases g with
      | nil =>
          cases g' with
          | nil => rfl
          | cons r' grest' =>
              rw [maskedSelect_nil_right, maskedSelect_cons]
              have hrow : maskedRow mrow ([] : List α) = maskedRow mrow r' :=
                maskedRow_congr mrow [] r' (fun j hj => by
                  have := h 0 j (by simpa [cellAt] using hj)
                  simpa [cellAt] using this)
              have hrest : maskedSelect mrest ([] : List (List α))
                  = maskedSelect mrest grest' :=
                ih [] grest' (fun i j hij => by
                  have := h (i + 1) j (by simpa [cellAt] using hij)
                  simpa [cellAt] using this)
              rw [maskedRow_nil_right] at hrow
              rw [maskedSelect_nil_right] at hrest
              rw [← hrow, ← hrest]
              rfl
      | cons r grest =>
          cases g' with
          | nil =>
              rw [maskedSelect_nil_right, maskedSelect_cons]
              have hrow : maskedRow mrow r = maskedRow mrow ([] : List α) :=
                maskedRow_congr mrow r [] (fun j hj => by
                  have := h 0 j (by simpa [cellAt] using hj)
                  simpa [cellAt] using this)
              have hrest : maskedSelect mrest grest
                  = maskedSelect mrest ([] : List (List α)) :=
                ih grest [] (fun i j hij => by
                  have := h (i + 1) j (by simpa [cellAt] using hij)
                  simpa [cellAt] using this)
              rw [maskedRow_nil_right] at hrow
              rw [maskedSelect_nil_right] at hrest
              rw [hrow, hrest]
              rfl
          | cons r' grest' =>
              rw [maskedSelect_cons, maskedSelect_cons]
              have hrow : maskedRow mrow r = maskedRow mrow r' :=
                maskedRow_congr mrow r r' (fun j hj => by
                  have := h 0 j (by simpa [cellAt] using hj)
                  simpa [cellAt] using this)
              have hrest : maskedSelect mrest grest = maskedSelect mrest grest' :=
                ih grest grest' (fun i j hij => by
                  have := h (i + 1) j (by simpa [cellAt] using hij)
                  simpa [cellAt] using this)
              rw [hrow, hrest]

/-- Every event of the eval batch loop is a model invocation or a decode
call: the loop contains no backward pass, no optimizer operation and no
logging. -/
lemma evalLoop_events_shape {α : Type} :
    ∀ (batches : List (EvalBatch α)) (e : Event),
      e ∈ (evalLoop batches).1 → e = .forward ∨ e = .decodeCall := by
  intro batches
  induction batches with
  | nil => intro e he; simp [evalLoop] at he
  | cons b rest ih =>
      intro e he
      rw [evalLoop] at he
      cases hm : b.modelResult with
      | error s =>
          rw [hm] at he
          simp at he
          exact Or.inl he
      | ok g =>
          rw [hm] at he
          cases hd : b.decodeResult with
          | error s =>
              rw [hd] at he
              simp at he
              rcases he with h | h
              · exact Or.inl h
              · exact Or.inr h
          | ok t =>
              obtain ⟨c, p, r⟩ := t
              rw [hd] at he
              simp at he
              rcases he with h | h | h
              · exact Or.inl h
              · exact Or.inr h
              · exact ih e h

/-! ## Claim C3 -/

/-- C3 (evaluating the code at the failing input): the batch whose model
call raises is indeed logged and skipped and the loop continues to the next
batch — but that next, successful batch then raises `AttributeError` at
`self.scheduler.step()` (line 82), because `__init__` never assigns
`self.scheduler` (its creation at lines 41-43 is commented out), so the
training epoch crashes instead of completing. -/
theorem train_epoch_crashes_on_first_success :
    ((train ⟨1, 1, "t.json", fun _ => ""⟩ (Trainer.init () ())
        [⟨[[0]], [[true]], Except.error "boom"⟩,
         ⟨[[0]], [[true]], Except.ok [[(3 : Nat)]]⟩]).2
      = Except.error TrainError.noScheduler)
    ∧ Event.logLine "boom" ∈ (train ⟨1, 1, "t.json", fun _ => ""⟩
        (Trainer.init () ())
        [⟨[[0]], [[true]], Except.error "boom"⟩,
         ⟨[[0]], [[true]], Except.ok [[(3 : Nat)]]⟩]).1
    ∧ (train ⟨1, 1, "t.json", fun _ => ""⟩ (Trainer.init () ())
        [⟨[[0]], [[true]], Except.error "boom"⟩,
         ⟨[[0]], [[true]], Except.ok [[(3 : Nat)]]⟩]).1.count Event.forward
      = 2 := by
  refine ⟨rfl, ?_, ?_⟩ <;> decide

/-! ## Claim C5 -/

/-- Conclusion of claim C5, for a successful train iteration: the criterion
receives exactly `(outputs[grid_mask2d], grid_labels[grid_mask2d])`, the
masked selection is insensitive to cells outside the validity mask, and the
event trace clips the gradient norm to `config.clip_grad_norm` before the
optimizer step, after which the gradients are cleared. -/
def trainOkSpec {α P O : Type} (cfg : Config) (tr : Trainer P O)
    (b : TrainBatch α) (rest : List (TrainBatch α))
    (outputs : List (List α)) : Prop :=
  (trainLoop cfg tr (b :: rest)).losses.head?
      = some (maskedSelect b.gridMask2d outputs,
          maskedSelect b.gridMask2d b.gridLabels)
  ∧ (∀ (g g' : List (List α)),
      (∀ i j : Nat, cellAt b.gridMask2d i j = some true →
          cellAt g i j = cellAt g' i j) →
      maskedSelect b.gridMask2d g = maskedSelect b.gridMask2d g')
  ∧ ∃ k1 k2 k3 : Nat, k1 < k2 ∧ k2 < k3
      ∧ (trainLoop cfg tr (b :: rest)).events[k1]?
          = some (Event.clipGrad cfg.clip_grad_norm)
      ∧ (trainLoop cfg tr (b :: rest)).events[k2]? = some Event.optStep
      ∧ (trainLoop cfg tr (b :: rest)).events[k3]? = some Event.zeroGrad

/-- C5: in every successful train iteration the cross-entropy loss is
computed only over mask-true grid cells, and the gradient norm is clipped
to `config.clip_grad_norm` before the optimizer steps and the gradients are
cleared. -/
theorem train_masked_loss_clip_order {α P O : Type} (cfg : Config)
    (tr : Trainer P O) (b : TrainBatch α) (rest : List (TrainBatch α))
    (outputs : List (List α)) (hok : b.modelResult = Except.ok outputs) :
    trainOkSpec cfg tr b rest outputs := by
  refine ⟨?_, fun g g' hgg => maskedSelect_congr b.gridMask2d g g' hgg,
    3, 4, 5, by omega, by omega, ?_, ?_, ?_⟩ <;>
    · rw [trainLoop, hok]
      cases hs : tr.scheduler <;> rfl

/-- Witness for C5 at a one-cell batch whose model call succeeds. -/
theorem train_masked_loss_clip_order_witness :
    (TrainBatch.modelResult ⟨[[2]], [[true]], Except.ok [[(7 : Nat)]]⟩
        = Except.ok [[(7 : Nat)]])
    ∧ trainOkSpec ⟨1, 5, "t.json", fun _ => ""⟩ (Trainer.init () ())
        ⟨[[2]], [[true]], Except.ok [[(7 : Nat)]]⟩ [] [[(7 : Nat)]] :=
  ⟨rfl, train_masked_loss_clip_order ⟨1, 5, "t.json", fun _ => ""⟩
    (Trainer.init () ()) ⟨[[2]], [[true]], Except.ok [[(7 : Nat)]]⟩ []
    [[(7 : Nat)]] rfl⟩

/-! ## Claim C6 -/

/-- C6: an Eval pass never modifies the model parameters or the optimizer
state: the whole batch loop runs between `no_grad` entry and exit, its trace
contains no backward pass, no gradient clipping, no optimizer step and no
gradient clearing, and the trainer's parameter and optimizer fields after
eval equal those before. -/
theorem eval_no_param_update {α P O : Type} (tr : Trainer P O)
    (batches : List (EvalBatch α)) :
    (evalRun tr batches).1.params = tr.params
    ∧ (evalRun tr batches).1.optState = tr.optState
    ∧ (∀ e ∈ (evalRun tr batches).2.1,
        e ≠ Event.backward ∧ e ≠ Event.optStep ∧ e ≠ Event.zeroGrad
          ∧ ∀ q : ℚ, e ≠ Event.clipGrad q)
    ∧ ((evalRun tr batches).2.1).head? = some Event.noGradBegin
    ∧ ((evalRun tr batches).2.1).getLast? = some Event.noGradEnd := by
  refine ⟨rfl, rfl, ?_, rfl, ?_⟩
  · intro e he
    have he2 : e ∈ Event.noGradBegin :: ((evalLoop batches).1 ++ [Event.noGradEnd]) := he
    rcases List.mem_cons.mp he2 with h | h
    · subst h
      exact ⟨nofun, nofun, nofun, fun q => nofun⟩
    · rcases List.mem_append.mp h with h2 | h2
      · rcases evalLoop_events_shape batches e h2 with h3 | h3 <;> subst h3 <;>
          exact ⟨nofun, nofun, nofun, fun q => nofun⟩
      · have h3 : e = Event.noGradEnd := by simpa using h2
        subst h3
        exact ⟨nofun, nofun, nofun, fun q => nofun⟩
  · show (Event.noGradBegin :: ((evalLoop batches).1 ++ [Event.noGradEnd])).getLast?
        = some Event.noGradEnd
    rw [← List.cons_append, List.getLast?_concat]

/-! ## Claim C4 -/

/-- C4 counterexample: in Eval a batch whose model call raises is not
logged and not skipped — the eval loop has no try/except, so the exception
propagates, the following batch is never entered, and the pass aborts. -/
theorem eval_failing_batch_aborts_counterexample :
    ((evalRun (Trainer.init () ())
        [⟨[[0]], [[true]], Except.error "fail", Except.ok (0, 0, 0)⟩,
         ⟨[[0]], [[true]], Except.ok [[(1 : Nat)]], Except.ok (1, 1, 1)⟩]).2.2
      = Except.error (EvalError.modelRaised "fail"))
    ∧ (evalLoop
        [⟨[[0]], [[true]], Except.error "fail", Except.ok (0, 0, 0)⟩,
         ⟨[[0]], [[true]], Except.ok [[(1 : Nat)]],
           Except.ok (1, 1, 1)⟩]).2.1 = 1
    ∧ (evalLoop
        [⟨[[0]], [[true]], Except.error "fail", Except.ok (0, 0, 0)⟩,
         (⟨[[0]], [[true]], Except.ok [[(1 : Nat)]],
           Except.ok (1, 1, 1)⟩ : EvalBatch Nat)]).1.count Event.forward
      = 1 :=
  ⟨rfl, rfl, by decide⟩

/-- C4 (amended): `Trainer.eval` applies no skip-and-log policy: when the
batches before position `k` succeed and batch `k` raises in the model call
or in decode, the eval pass aborts with that exception, exactly `k + 1`
batches are entered (the later ones are never processed), and no log line
is emitted by the loop. -/
theorem eval_aborts_on_first_failure {α P O : Type} (tr : Trainer P O)
    (pre : List (EvalBatch α)) (b : EvalBatch α) (rest : List (EvalBatch α))
    (hpre : ∀ x ∈ pre, (∃ g, x.modelResult = Except.ok g)
        ∧ ∃ t, x.decodeResult = Except.ok t)
    (hb : (∃ e, b.modelResult = Except.error e)
        ∨ ((∃ g, b.modelResult = Except.ok g)
            ∧ ∃ e, b.decodeResult = Except.error e)) :
    (∃ err, (evalRun tr (pre ++ b :: rest)).2.2 = Except.error err
        ∧ err ≠ EvalError.emptyCat)
    ∧ (evalLoop (pre ++ b :: rest)).2.1 = pre.length + 1
    ∧ ∀ s : String, Event.logLine s ∉ (evalLoop (pre ++ b :: rest)).1 := by
  have key : ∀ pre2 : List (EvalBatch α),
      (∀ x ∈ pre2, (∃ g, x.modelResult = Except.ok g)
          ∧ ∃ t, x.decodeResult = Except.ok t) →
      (∃ err, (evalLoop (pre2 ++ b :: rest)).2.2 = Except.error err
          ∧ err ≠ EvalError.emptyCat)
      ∧ (evalLoop (pre2 ++ b :: rest)).2.1 = pre2.length + 1
      ∧ ∀ s : String, Event.logLine s ∉ (evalLoop (pre2 ++ b :: rest)).1 := by
    intro pre2
    induction pre2 with
    | nil =>
        intro _
        rcases hb with ⟨e, he⟩ | ⟨⟨g, hg⟩, e, he⟩
        · refine ⟨⟨EvalError.modelRaised e, ?_, nofun⟩, ?_, ?_⟩
          · rw [List.nil_append, evalLoop, he]
          · rw [List.nil_append, evalLoop, he]
            rfl
          · intro s
            rw [List.nil_append, evalLoop, he]
            simp
        · refine ⟨⟨EvalError.decodeRaised e, ?_, nofun⟩, ?_, ?_⟩
          · rw [List.nil_append, evalLoop, hg, he]
          · rw [List.nil_append, evalLoop, hg, he]
            rfl
          · intro s
            rw [List.nil_append, evalLoop, hg, he]
            simp
    | cons x pre' ih =>
        intro hall
        obtain ⟨⟨g, hg⟩, ⟨t, ht⟩⟩ := hall x (List.mem_cons_self x pre')
        obtain ⟨c, p, r⟩ := t
        have ihres := ih (fun y hy => hall y (List.mem_cons_of_mem x hy))
        obtain ⟨⟨err, herr, hne⟩, hcount, hlog⟩ := ihres
        have hunf : evalLoop ((x :: pre') ++ b :: rest)
            = (Event.forward :: Event.decodeCall
                :: (evalLoop (pre' ++ b :: rest)).1,
              (evalLoop (pre' ++ b :: rest)).2.1 + 1,
              ((evalLoop (pre' ++ b :: rest)).2.2).map
                (fun s => (s.1 + c, s.2.1 + p, s.2.2 + r))) := by
          rw [List.cons_append, evalLoop, hg, ht]
        refine ⟨⟨err, ?_, hne⟩, ?_, ?_⟩
        · rw [hunf]
          simp only [herr]
          rfl
        · rw [hunf]
          simp [hcount]
        · intro s
          rw [hunf]
          intro hmem
          rcases List.mem_cons.mp hmem with h | h
          · exact Event.noConfusion h
          · rcases List.mem_cons.mp h with h2 | h2
            · exact Event.noConfusion h2
            · exact hlog s h2
  obtain ⟨⟨err, herr, hne⟩, hcount, hlog⟩ := key pre hpre
  refine ⟨⟨err, ?_, hne⟩, hcount, hlog⟩
  have hrw : (evalRun tr (pre ++ b :: rest)).2.2
      = match (evalLoop (pre ++ b :: rest)).2.2 with
        | .error e => Except.error e
        | .ok s =>
            if (pre ++ b :: rest).length = 0 then Except.error .emptyCat
            else Except.ok s := rfl
  rw [hrw, herr]

/-- Witness for C4 (amended): one good batch, then a batch whose model call
raises, then one more batch that is never reached. -/
theorem eval_aborts_on_first_failure_witness :
    ((∀ x ∈ ([⟨[[0]], [[true]], Except.ok [[(1 : Nat)]], Except.ok (1, 1, 1)⟩]
        : List (EvalBatch Nat)),
        (∃ g, x.modelResult = Except.ok g) ∧ ∃ t, x.decodeResult = Except.ok t)
      ∧ ((∃ e, (⟨[[0]], [[true]], Except.error "dead", Except.ok (0, 0, 0)⟩
            : EvalBatch Nat).modelResult = Except.error e)
        ∨ ((∃ g, (⟨[[0]], [[true]], Except.error "dead", Except.ok (0, 0, 0)⟩
              : EvalBatch Nat).modelResult = Except.ok g)
            ∧ ∃ e, (⟨[[0]], [[true]], Except.error "dead", Except.ok (0, 0, 0)⟩
              : EvalBatch Nat).decodeResult = Except.error e)))
    ∧ (∃ err, (evalRun (Trainer.init () ())
          ([⟨[[0]], [[true]], Except.ok [[(1 : Nat)]], Except.ok (1, 1, 1)⟩]
            ++ ⟨[[0]], [[true]], Except.error "dead", Except.ok (0, 0, 0)⟩
              :: [⟨[[0]], [[true]], Except.ok [[(1 : Nat)]],
                    Except.ok (2, 2, 2)⟩])).2.2
          = Except.error err ∧ err ≠ EvalError.emptyCat)
      ∧ (evalLoop
          ([⟨[[0]], [[true]], Except.ok [[(1 : Nat)]], Except.ok (1, 1, 1)⟩]
            ++ ⟨[[0]], [[true]], Except.error "dead", Except.ok (0, 0, 0)⟩
              :: [⟨[[0]], [[true]], Except.ok [[(1 : Nat)]],
                    Except.ok (2, 2, 2)⟩])).2.1
          = ([⟨[[0]], [[true]], Except.ok [[(1 : Nat)]], Except.ok (1, 1, 1)⟩]
              : List (EvalBatch Nat)).length + 1
      ∧ ∀ s : String, Event.logLine s ∉ (evalLoop
          ([⟨[[0]], [[true]], Except.ok [[(1 : Nat)]], Except.ok (1, 1, 1)⟩]
            ++ ⟨[[0]], [[true]], Except.error "dead", Except.ok (0, 0, 0)⟩
              :: [⟨[[0]], [[true]], Except.ok [[(1 : Nat)]],
                    Except.ok (2, 2, 2)⟩])).1 :=
  ⟨⟨fun x hx => by
      simp at hx
      subst hx
      exact ⟨⟨[[(1 : Nat)]], rfl⟩, ⟨(1, 1, 1), rfl⟩⟩,
    Or.inl ⟨"dead", rfl⟩⟩,
    eval_aborts_on_first_failure (Trainer.init () ())
      [⟨[[0]], [[true]], Except.ok [[(1 : Nat)]], Except.ok (1, 1, 1)⟩]
      ⟨[[0]], [[true]], Except.error "dead", Except.ok (0, 0, 0)⟩
      [⟨[[0]], [[true]], Except.ok [[(1 : Nat)]], Except.ok (2, 2, 2)⟩]
      (fun x hx => by
        simp at hx
        subst hx
        exact ⟨⟨[[(1 : Nat)]], rfl⟩, ⟨(1, 1, 1), rfl⟩⟩)
      (Or.inl ⟨"dead", rfl⟩)⟩

/-! ## GridCodec (modelled from the spec)

The repository snapshot contains only `infer.py`; `utils.py` (with
`utils.decode`) and the gold-grid encoder of the data-preparation code are
missing, so the grid codec is modelled from the specification (sections 3
and 4.1, the decode steps, and the design notes): a label grid with two
relation channels — continuation and type-closure — an encoder that marks
a continuation edge between consecutive tokens of a span and a type-closure
edge from its last token back to its first, and a decoder that enumerates
simple paths of the continuation graph from nodes without incoming edges,
keeps those closed by a type edge from their last to their first token, and
deduplicates. -/

/-- Modelled from the spec: an entity span (section 3, EntitySpan) — token
indices walked in increasing order, not necessarily contiguous, plus a type
id; `utils.py`, which defines the concrete representation, is missing. -/
structure Span where
  idxs : List Nat
  typ : Nat
deriving DecidableEq

/-- Modelled from the spec: the label grid over token pairs (section 3,
LabelGrid; section 4.1 "distinct relation channels — continuation vs
type-closure"); the concrete grid construction code is missing.  `cont i j`
marks "`j` continues a span after `i`"; `clos i j` carries the type label
of a span whose last token is `i` and first token is `j`. -/
structure LabelGrid where
  cont : Nat → Nat → Bool
  clos : Nat → Nat → Option Nat

/-- Modelled from the spec: `encode(sentence, spans)` (section 4.1) — for
each span, walk its token indices in order marking continuation cells
between consecutive tokens, and mark a closing cell linking the span's last
token back to its first token with the span's type label; the encoder's
source is missing. -/
def encode (spans : List Span) : LabelGrid :=
  { cont := fun i j =>
      spans.any (fun sp => (sp.idxs.zip sp.idxs.tail).any
        (fun q => q.1 == i && q.2 == j))
    clos := fun i j =>
      (spans.find? (fun sp =>
          sp.idxs.getLast? == some i && sp.idxs.head? == some j)).map
        (fun sp => sp.typ) }

/-- Modelled from the spec: decode's continuation graph (decode step 1) —
the successors of token `u` among the first `L` tokens; `utils.decode` is
missing. -/
def succs (g : LabelGrid) (L u : Nat) : List Nat :=
  (List.range L).filter (fun v => g.cont u v)

/-- Modelled from the spec: whether token `u` has an incoming continuation
edge (decode step 2); `utils.decode` is missing. -/
def hasIncoming (g : LabelGrid) (L u : Nat) : Bool :=
  (List.range L).any (fun i => g.cont i u)

/-- Modelled from the spec: the valid span starts (decode step 2) — the
tokens with no incoming continuation edge; `utils.decode` is missing. -/
def startNodes (g : LabelGrid) (L : Nat) : List Nat :=
  (List.range L).filter (fun u => !(hasIncoming g L u))

/-- Modelled from the spec: forward traversal of the continuation graph
from `u` (decode step 2 and the design note on resource bounding),
collecting every intermediate simple path, handling branching, never
revisiting a node within one path (`visited`) and bounding depth by the
fuel so that a continuation cycle cannot cause nontermination;
`utils.decode` is missing. -/
def pathsFrom (g : LabelGrid) (L : Nat) :
    Nat → List Nat → Nat → List (List Nat)
  | 0, _, u => [[u]]
  | fuel + 1, visited, u =>
      [u] :: ((succs g L u).filter
          (fun v => !((u :: visited).contains v))).flatMap
        (fun v => (pathsFrom g L fuel (u :: visited) v).map (fun p => u :: p))

/-- Modelled from the spec: decode step 3 — keep each enumerated path that
has a type-closure edge from its last token back to its first token, the
path's token list plus that edge's label forming a decoded entity;
`utils.decode` is missing. -/
def candidateEntities (g : LabelGrid) (L : Nat) : List Span :=
  ((startNodes g L).flatMap (fun u => pathsFrom g L L [] u)).filterMap
    (fun p =>
      match p.getLast?, p.head? with
      | some tl, some hd => (g.clos tl hd).map (fun t => ⟨p, t⟩)
      | _, _ => none)

/-- Modelled from the spec: decode step 4 — deduplicate the decoded
entities before counting; `utils.decode` is missing. -/
def decodeEntities (g : LabelGrid) (L : Nat) : List Span :=
  (candidateEntities g L).dedup

/-- Modelled from the spec: well-formedness of a span set for the
round-trip property (section 8) — every span walks a nonempty strictly
increasing list of token indices below `L`, and distinct spans share no
token ("non-overlapping-token"). -/
def WellFormed (L : Nat) (spans : List Span) : Prop :=
  (∀ sp ∈ spans, sp.idxs ≠ [] ∧ sp.idxs.Chain' (· < ·)
      ∧ ∀ x ∈ sp.idxs, x < L)
  ∧ spans.Pairwise (fun a b => ∀ x ∈ a.idxs, x ∉ b.idxs)

/-! ## GridCodec: basic lemmas -/

lemma mem_of_getLast?_eq_some {l : List Nat} {a : Nat}
    (h : l.getLast? = some a) : a ∈ l := by
  obtain ⟨hne, heq⟩ := List.mem_getLast?_eq_getLast h
  rw [heq]
  exact List.getLast_mem hne

/-- Membership in the consecutive-pairs list `l.zip l.tail` is exactly
adjacency at some position of `l`. -/
lemma mem_zip_tail :
    ∀ {l : List Nat} {a b : Nat},
      (a, b) ∈ l.zip l.tail ↔ ∃ k, l[k]? = some a ∧ l[k + 1]? = some b := by
  intro l
  induction l with
  | nil =>
      intro a b
      simp
  | cons x xs ih =>
      intro a b
      cases xs with
      | nil =>
          simp [List.zip_nil_right]
      | cons y ys =>
          constructor
          · intro h
            rcases List.mem_cons.mp h with h1 | h1
            · refine ⟨0, ?_, ?_⟩ <;> simp_all
            · obtain ⟨k, hk1, hk2⟩ := ih.mp h1
              exact ⟨k + 1, by simpa using hk1, by simpa using hk2⟩
          · rintro ⟨k, hk1, hk2⟩
            cases k with
            | zero =>
                simp at hk1 hk2
                subst hk1
                subst hk2
                exact List.mem_cons_self _ _
            | succ m =>
                simp at hk1 hk2
                exact List.mem_cons_of_mem _
                  (ih.mpr ⟨m, by simpa using hk1, by simpa using hk2⟩)

/-- Every list is a chain for its own adjacency relation. -/
lemma chain'_zip_tail (l : List Nat) :
    l.Chain' (fun a b => (a, b) ∈ l.zip l.tail) := by
  rw [List.chain'_iff_get]
  intro i hi
  refine mem_zip_tail.mpr ⟨i, ?_, ?_⟩
  · exact List.getElem?_eq_getElem (by omega)
  · exact List.getElem?_eq_getElem (by omega)

/-- In a duplicate-free list each element has at most one successor. -/
lemma zip_tail_succ_unique {l : List Nat} (hnd : l.Nodup) {a b c : Nat}
    (h1 : (a, b) ∈ l.zip l.tail) (h2 : (a, c) ∈ l.zip l.tail) : b = c := by
  obtain ⟨k1, hk1a, hk1b⟩ := mem_zip_tail.mp h1
  obtain ⟨k2, hk2a, hk2b⟩ := mem_zip_tail.mp h2
  have hlt : k1 < l.length := by
    by_contra hge
    rw [List.getElem?_eq_none (by omega)] at hk1a
    exact Option.noConfusion hk1a
  have hkk : k1 = k2 := List.getElem?_inj hlt hnd (hk1a.trans hk2a.symm)
  subst hkk
  rw [hk1b] at hk2b
  exact Option.some.inj hk2b

/-- A duplicate-free position list with at most one predecessor each. -/
lemma zip_tail_pred_unique {l : List Nat} (hnd : l.Nodup) {a b c : Nat}
    (h1 : (a, c) ∈ l.zip l.tail) (h2 : (b, c) ∈ l.zip l.tail) : a = b := by
  obtain ⟨k1, hk1a, hk1b⟩ := mem_zip_tail.mp h1
  obtain ⟨k2, hk2a, hk2b⟩ := mem_zip_tail.mp h2
  have hlt : k1 + 1 < l.length := by
    by_contra hge
    rw [List.getElem?_eq_none (by omega)] at hk1b
    exact Option.noConfusion hk1b
  have hkk : k1 + 1 = k2 + 1 := List.getElem?_inj hlt hnd (hk1b.trans hk2b.symm)
  have hkk2 : k1 = k2 := by omega
  subst hkk2
  rw [hk1a] at hk2a
  exact Option.some.inj hk2a

/-- A duplicate-free list of naturals all below `L` has length at most `L`. -/
lemma length_le_of_nodup_lt {l : List Nat} {L : Nat} (hnd : l.Nodup)
    (h : ∀ x ∈ l, x < L) : l.length ≤ L := by
  have h1 : l.toFinset.card = l.length := List.toFinset_card_of_nodup hnd
  have h2 : l.toFinset ⊆ Finset.range L := by
    intro x hx
    rw [Finset.mem_range]
    exact h x (List.mem_toFinset.mp hx)
  have h3 := Finset.card_le_card h2
  rw [h1, Finset.card_range] at h3
  exact h3

lemma mem_of_head?_eq_some {l : List Nat} {a : Nat} (h : l.head? = some a) :
    a ∈ l :=
  List.mem_of_mem_head? (by simp [h])

/-! ## GridCodec: characterization of the encoded grid -/

/-- The continuation channel of the encoded grid marks exactly the
consecutive pairs of the spans. -/
lemma encode_cont_iff (spans : List Span) (i j : Nat) :
    (encode spans).cont i j = true
      ↔ ∃ sp ∈ spans, (i, j) ∈ sp.idxs.zip sp.idxs.tail := by
  simp only [encode, List.any_eq_true, Bool.and_eq_true, beq_iff_eq]
  constructor
  · rintro ⟨sp, hsp, q, hq, h1, h2⟩
    refine ⟨sp, hsp, ?_⟩
    obtain ⟨qa, qb⟩ := q
    simp only at h1 h2
    subst h1
    subst h2
    exact hq
  · rintro ⟨sp, hsp, hq⟩
    exact ⟨sp, hsp, (i, j), hq, rfl, rfl⟩

/-- Under well-formedness two spans sharing a token are equal. -/
lemma span_eq_of_shared {L : Nat} {spans : List Span}
    (hw : WellFormed L spans) {sp sp' : Span} (hsp : sp ∈ spans)
    (hsp' : sp' ∈ spans) {u : Nat} (hu : u ∈ sp.idxs) (hu' : u ∈ sp'.idxs) :
    sp = sp' := by
  by_contra hne
  have hsymm : Symmetric (fun a b : Span => ∀ x ∈ a.idxs, x ∉ b.idxs) := by
    intro a b h x hx hxa
    exact h x hxa hx
  exact List.Pairwise.forall hsymm hw.2 hsp hsp' hne u hu hu'

/-- The indices of a well-formed span are duplicate-free. -/
lemma wf_idxs_nodup {L : Nat} {spans : List Span} (hw : WellFormed L spans)
    {sp : Span} (hsp : sp ∈ spans) : sp.idxs.Nodup := by
  have hpw := List.chain'_iff_pairwise.mp (hw.1 sp hsp).2.1
  exact hpw.imp (fun hab => Nat.ne_of_lt hab)

/-- A well-formed span list is duplicate-free. -/
lemma wf_spans_nodup {L : Nat} {spans : List Span} (hw : WellFormed L spans) :
    spans.Nodup := by
  refine List.Pairwise.imp_of_mem ?_ hw.2
  intro a b ha _ hr
  intro hab
  subst hab
  obtain ⟨x, hx⟩ := List.exists_mem_of_ne_nil a.idxs (hw.1 a ha).1
  exact hr x hx hx

/-- The closure channel of the encoded grid holds exactly the tail-to-head
edges of the spans, labelled with their types. -/
lemma encode_clos_iff {L : Nat} {spans : List Span} (hw : WellFormed L spans)
    (i j t : Nat) :
    (encode spans).clos i j = some t
      ↔ ∃ sp ∈ spans, sp.idxs.getLast? = some i ∧ sp.idxs.head? = some j
          ∧ sp.typ = t := by
  constructor
  · intro h
    simp only [encode] at h
    cases hf : spans.find? (fun sp =>
        sp.idxs.getLast? == some i && sp.idxs.head? == some j) with
    | none =>
        rw [hf] at h
        exact Option.noConfusion h
    | some sp =>
        rw [hf] at h
        simp only [Option.map_some'] at h
        have hmem := List.mem_of_find?_eq_some hf
        have hpred := List.find?_some hf
        simp only [Bool.and_eq_true, beq_iff_eq] at hpred
        exact ⟨sp, hmem, hpred.1, hpred.2, Option.some.inj h⟩
  · rintro ⟨sp, hsp, hlast, hhead, htyp⟩
    simp only [encode]
    cases hf : spans.find? (fun sp =>
        sp.idxs.getLast? == some i && sp.idxs.head? == some j) with
    | none =>
        rw [List.find?_eq_none] at hf
        have hcontra := hf sp hsp
        simp [hlast, hhead] at hcontra
    | some x =>
        have hxmem := List.mem_of_find?_eq_some hf
        have hxpred := List.find?_some hf
        simp only [Bool.and_eq_true, beq_iff_eq] at hxpred
        have hjx : j ∈ x.idxs := mem_of_head?_eq_some hxpred.2
        have hjsp : j ∈ sp.idxs := mem_of_head?_eq_some hhead
        have hxsp : x = sp := span_eq_of_shared hw hxmem hsp hjx hjsp
        rw [hxsp]
        simp [htyp]

/-- The head of a well-formed span has no incoming continuation edge in the
encoded grid. -/
lemma head_no_incoming {L : Nat} {spans : List Span} (hw : WellFormed L spans)
    {sp : Span} (hsp : sp ∈ spans) {h0 : Nat} (hh : sp.idxs.head? = some h0) :
    ∀ i : Nat, (encode spans).cont i h0 = false := by
  intro i
  by_contra hc
  rw [Bool.not_eq_false] at hc
  obtain ⟨sp', hsp', hpair⟩ := (encode_cont_iff spans i h0).mp hc
  have hmem' : h0 ∈ sp'.idxs := List.mem_of_mem_tail (List.of_mem_zip hpair).2
  have hmem : h0 ∈ sp.idxs := mem_of_head?_eq_some hh
  have heq : sp' = sp := span_eq_of_shared hw hsp' hsp hmem' hmem
  rw [heq] at hpair
  have htail : h0 ∈ sp.idxs.tail := (List.of_mem_zip hpair).2
  have hnd := wf_idxs_nodup hw hsp
  obtain ⟨rest, hrest⟩ : ∃ rest, sp.idxs = h0 :: rest := by
    cases hl : sp.idxs with
    | nil =>
        rw [hl] at hh
        exact Option.noConfusion hh
    | cons a rest =>
        rw [hl] at hh
        simp only [List.head?_cons, Option.some.injEq] at hh
        subst hh
        exact ⟨rest, rfl⟩
  rw [hrest] at htail hnd
  simp only [List.tail_cons] at htail
  exact (List.nodup_cons.mp hnd).1 htail

/-! ## GridCodec: path enumeration lemmas -/

/-- Soundness of the path enumeration: every collected path starts at the
given node and follows continuation edges. -/
lemma pathsFrom_shape (g : LabelGrid) (L : Nat) :
    ∀ (fuel : Nat) (vis : List Nat) (u : Nat) (p : List Nat),
      p ∈ pathsFrom g L fuel vis u →
      p.head? = some u ∧ p.Chain' (fun a b => g.cont a b = true) := by
  intro fuel
  induction fuel with
  | zero =>
      intro vis u p hp
      rw [pathsFrom] at hp
      simp at hp
      subst hp
      exact ⟨rfl, List.chain'_singleton u⟩
  | succ f ih =>
      intro vis u p hp
      rw [pathsFrom] at hp
      rcases List.mem_cons.mp hp with h | h
      · subst h
        exact ⟨rfl, List.chain'_singleton u⟩
      · rw [List.mem_flatMap] at h
        obtain ⟨v, hv, hmap⟩ := h
        rw [List.mem_map] at hmap
        obtain ⟨q, hq, hqp⟩ := hmap
        obtain ⟨hqhead, hqchain⟩ := ih (u :: vis) v q hq
        have hcont : g.cont u v = true := by
          have hvs := (List.mem_filter.mp hv).1
          exact (List.mem_filter.mp hvs).2
        subst hqp
        refine ⟨rfl, ?_⟩
        rw [List.chain'_cons']
        refine ⟨?_, hqchain⟩
        intro b hb
        rw [hqhead] at hb
        have hbv : v = b := by simpa using hb
        rw [← hbv]
        exact hcont

/-- Completeness of the path enumeration: every duplicate-free continuation
chain from `u`, avoiding the visited set, within range, and no longer than
the fuel allows, is collected. -/
lemma pathsFrom_complete (g : LabelGrid) (L : Nat) :
    ∀ (p : List Nat) (fuel : Nat) (vis : List Nat) (u : Nat),
      p.head? = some u →
      p.Chain' (fun a b => g.cont a b = true) →
      p.Nodup →
      (∀ x ∈ p, x ∉ vis) →
      (∀ x ∈ p, x < L) →
      p.length ≤ fuel + 1 →
      p ∈ pathsFrom g L fuel vis u := by
  intro p
  induction p with
  | nil =>
      intro fuel vis u hhead
      exact absurd hhead (by simp)
  | cons a q ih =>
      intro fuel vis u hhead hchain hnd hvis hlt hlen
      have hau : a = u := by simpa using hhead
      subst hau
      cases q with
      | nil =>
          cases fuel with
          | zero =>
              rw [pathsFrom]
              simp
          | succ f =>
              rw [pathsFrom]
              exact List.mem_cons_self _ _
      | cons v q' =>
          cases fuel with
          | zero =>
              simp at hlen
          | succ f =>
              rw [pathsFrom]
              refine List.mem_cons_of_mem _ ?_
              rw [List.mem_flatMap]
              refine ⟨v, ?_, ?_⟩
              · rw [List.mem_filter]
                constructor
                · rw [succs, List.mem_filter]
                  constructor
                  · rw [List.mem_range]
                    exact hlt v (by simp)
                  · exact (List.chain'_cons.mp hchain).1
                · have hvnot : v ∉ a :: vis := by
                    intro hmem
                    rcases List.mem_cons.mp hmem with h | h
                    · have hnotin := (List.nodup_cons.mp hnd).1
                      exact hnotin (h ▸ List.mem_cons_self v q')
                    · exact hvis v (by simp) h
                  simpa using hvnot
              · rw [List.mem_map]
                refine ⟨v :: q', ?_, rfl⟩
                refine ih f (a :: vis) v rfl (List.chain'_cons.mp hchain).2
                  (List.nodup_cons.mp hnd).2 ?_ ?_ ?_
                · intro x hx
                  intro hmem
                  rcases List.mem_cons.mp hmem with h | h
                  · have hnotin := (List.nodup_cons.mp hnd).1
                    exact hnotin (h ▸ hx)
                  · exact hvis x (List.mem_cons_of_mem _ hx) h
                · intro x hx
                  exact hlt x (List.mem_cons_of_mem _ hx)
                · have := hlen
                  simp only [List.length_cons] at this ⊢
                  omega

/-- A continuation chain of the encoded grid that starts at position `m` of
a well-formed span is an initial segment of that span's remaining
indices. -/
lemma chain_prefix_of_encode {L : Nat} {spans : List Span}
    (hw : WellFormed L spans) {sp : Span} (hsp : sp ∈ spans) :
    ∀ (p : List Nat) (m : Nat),
      p.Chain' (fun a b => (encode spans).cont a b = true) →
      p ≠ [] →
      p.head? = sp.idxs[m]? →
      p <+: sp.idxs.drop m := by
  intro p
  induction p with
  | nil =>
      intro m _ hne _
      exact absurd rfl hne
  | cons a q ih =>
      intro m hch _ hhead
      have ha : sp.idxs[m]? = some a := by
        rw [← hhead]
        rfl
      have hmlt : m < sp.idxs.length := by
        by_contra hge
        rw [List.getElem?_eq_none (by omega)] at ha
        exact Option.noConfusion ha
      have hdrop : sp.idxs.drop m = sp.idxs[m] :: sp.idxs.drop (m + 1) :=
        List.drop_eq_getElem_cons hmlt
      have hga : sp.idxs[m] = a := by
        rw [List.getElem?_eq_getElem hmlt] at ha
        exact Option.some.inj ha
      cases q with
      | nil =>
          rw [hdrop, hga]
          exact ⟨sp.idxs.drop (m + 1), rfl⟩
      | cons v q' =>
          have hcv : (encode spans).cont a v = true := (List.chain'_cons.mp hch).1
          obtain ⟨sp', hsp', hpair⟩ := (encode_cont_iff spans a v).mp hcv
          have hasp' : a ∈ sp'.idxs := (List.of_mem_zip hpair).1
          have hasp : a ∈ sp.idxs := by
            rw [← hga]
            exact List.getElem_mem hmlt
          have heqs : sp' = sp := span_eq_of_shared hw hsp' hsp hasp' hasp
          rw [heqs] at hpair
          obtain ⟨k, hk1, hk2⟩ := mem_zip_tail.mp hpair
          have hklt : k < sp.idxs.length := by
            by_contra hge
            rw [List.getElem?_eq_none (by omega)] at hk1
            exact Option.noConfusion hk1
          have hkm : k = m :=
            List.getElem?_inj hklt (wf_idxs_nodup hw hsp) (hk1.trans ha.symm)
          subst hkm
          have hq : (v :: q') <+: sp.idxs.drop (k + 1) :=
            ih (k + 1) (List.chain'_cons.mp hch).2 (by simp) (by simpa using hk2.symm)
          obtain ⟨r, hr⟩ := hq
          rw [hdrop, hga]
          refine ⟨r, ?_⟩
          rw [List.cons_append, hr]

/-- A nonempty prefix of a duplicate-free list ending at the list's last
element is the whole list. -/
lemma prefix_getLast_eq {l p : List Nat} (hnd : l.Nodup) (hp : p <+: l)
    (hne : p ≠ []) (hlast : p.getLast? = l.getLast?) : p = l := by
  obtain ⟨r, hr⟩ := hp
  cases hrc : r with
  | nil =>
      rw [hrc] at hr
      simpa using hr
  | cons y ys =>
      exfalso
      rw [hrc] at hr
      have hll : l.getLast? = (y :: ys).getLast? := by
        rw [← hr]
        exact List.getLast?_append_of_ne_nil p (by simp)
      obtain ⟨x, hx⟩ : ∃ x, p.getLast? = some x := by
        cases hpl : p.getLast? with
        | none =>
            rw [List.getLast?_eq_none_iff] at hpl
            exact absurd hpl hne
        | some x => exact ⟨x, rfl⟩
      have hxp : x ∈ p := mem_of_getLast?_eq_some hx
      have hxr : x ∈ (y :: ys) := by
        apply mem_of_getLast?_eq_some
        rw [← hll, ← hlast, hx]
      have hnd2 := hnd
      rw [← hr] at hnd2
      obtain ⟨_, _, hdisj⟩ := List.nodup_append.mp hnd2
      exact hdisj hxp hxr

lemma head?_eq_getElem?_zero (l : List Nat) : l.head? = l[0]? := by
  cases l <;> simp

/-! ## Claim C2 -/

/-- C2: decoding the label grid produced by encoding a well-formed
(non-overlapping-token, possibly discontinuous) span set returns exactly
the original spans — the same token-index lists and the same type ids;
both sides are duplicate-free and the decoded list is a permutation of the
input spans. -/
theorem gridcodec_round_trip (L : Nat) (spans : List Span)
    (hw : WellFormed L spans) :
    (∀ sp : Span, sp ∈ decodeEntities (encode spans) L ↔ sp ∈ spans)
    ∧ List.Perm (decodeEntities (encode spans) L) spans := by
  have hiff : ∀ sp : Span, sp ∈ decodeEntities (encode spans) L ↔ sp ∈ spans := by
    intro sp
    rw [decodeEntities, List.mem_dedup, candidateEntities, List.mem_filterMap]
    constructor
    · rintro ⟨p, hp, hf⟩
      rw [List.mem_flatMap] at hp
      obtain ⟨u, _, hpu⟩ := hp
      obtain ⟨hphead, hpchain⟩ := pathsFrom_shape (encode spans) L L [] u p hpu
      have hpne : p ≠ [] := by
        intro hnil
        rw [hnil] at hphead
        exact Option.noConfusion hphead
      obtain ⟨tl, hgl⟩ : ∃ tl, p.getLast? = some tl :=
        ⟨p.getLast hpne, List.getLast?_eq_getLast_of_ne_nil hpne⟩
      rw [hgl, hphead] at hf
      have hf2 : ((encode spans).clos tl u).map (fun t => (⟨p, t⟩ : Span))
          = some sp := hf
      cases hclos : (encode spans).clos tl u with
      | none =>
          rw [hclos] at hf2
          exact Option.noConfusion hf2
      | some t =>
          rw [hclos] at hf2
          simp only [Option.map_some'] at hf2
          have hspx : sp = ⟨p, t⟩ := (Option.some.inj hf2).symm
          obtain ⟨sp0, hsp0, h0last, h0head, h0typ⟩ :=
            (encode_clos_iff hw tl u t).mp hclos
          have hpref : p <+: sp0.idxs := by
            have h := chain_prefix_of_encode hw hsp0 p 0 hpchain hpne
              (by rw [hphead, ← head?_eq_getElem?_zero, h0head])
            rw [List.drop_zero] at h
            exact h
          have hpeq : p = sp0.idxs :=
            prefix_getLast_eq (wf_idxs_nodup hw hsp0) hpref hpne
              (hgl.trans h0last.symm)
          rw [hspx, hpeq, ← h0typ]
          exact hsp0
    · intro hsp
      have hne : sp.idxs ≠ [] := (hw.1 sp hsp).1
      obtain ⟨h0, hh0⟩ : ∃ h0, sp.idxs.head? = some h0 := by
        cases hl : sp.idxs with
        | nil => exact absurd hl hne
        | cons a rest => exact ⟨a, rfl⟩
      obtain ⟨tl, htl⟩ : ∃ tl, sp.idxs.getLast? = some tl :=
        ⟨sp.idxs.getLast hne, List.getLast?_eq_getLast_of_ne_nil hne⟩
      refine ⟨sp.idxs, ?_, ?_⟩
      · rw [List.mem_flatMap]
        refine ⟨h0, ?_, ?_⟩
        · rw [startNodes, List.mem_filter]
          constructor
          · rw [List.mem_range]
            exact (hw.1 sp hsp).2.2 h0 (mem_of_head?_eq_some hh0)
          · have hni := head_no_incoming hw hsp hh0
            have : hasIncoming (encode spans) L h0 = false := by
              rw [hasIncoming]
              rw [List.any_eq_false]
              intro i _
              rw [hni i]
              exact Bool.false_ne_true
            rw [this]
            rfl
        · apply pathsFrom_complete
          · exact hh0
          · refine (chain'_zip_tail sp.idxs).imp ?_
            intro a b hab
            exact (encode_cont_iff spans a b).mpr ⟨sp, hsp, hab⟩
          · exact wf_idxs_nodup hw hsp
          · intro x _
            simp
          · exact (hw.1 sp hsp).2.2
          · have := length_le_of_nodup_lt (wf_idxs_nodup hw hsp)
              (hw.1 sp hsp).2.2
            omega
      · rw [htl, hh0]
        have hclos : (encode spans).clos tl h0 = some sp.typ :=
          (encode_clos_iff hw tl h0 sp.typ).mpr ⟨sp, hsp, htl, hh0, rfl⟩
        show ((encode spans).clos tl h0).map (fun t => (⟨sp.idxs, t⟩ : Span))
            = some sp
        rw [hclos]
        rfl
  refine ⟨hiff, ?_⟩
  exact (List.perm_ext_iff_of_nodup (List.nodup_dedup _)
    (wf_spans_nodup hw)).mpr hiff

/-- Witness for C2 at the spec's discontinuous scenario: a single span with
token indices `[1, 4]` (skipping tokens 2 and 3) and type 7 in a five-token
sentence decodes back from its encoding to exactly that span. -/
theorem gridcodec_round_trip_witness :
    WellFormed 5 [⟨[1, 4], 7⟩]
    ∧ ((∀ sp : Span,
          sp ∈ decodeEntities (encode [⟨[1, 4], 7⟩]) 5 ↔ sp ∈ [⟨[1, 4], 7⟩])
        ∧ List.Perm (decodeEntities (encode [⟨[1, 4], 7⟩]) 5) [⟨[1, 4], 7⟩]) :=
by
  have hwf : WellFormed 5 [⟨[1, 4], 7⟩] := by
    constructor
    · intro sp hsp
      rw [List.mem_singleton] at hsp
      subst hsp
      refine ⟨by simp, ?_, by decide⟩
      rw [List.chain'_cons]
      exact ⟨by omega, List.chain'_singleton 4⟩
    · simp
  exact ⟨hwf, gridcodec_round_trip 5 [⟨[1, 4], 7⟩] hwf⟩

end W2NER
